import Mathlib

/-!
Shallow embedding of the TFT unit-probability tool (src/main.py).

The program's only computational component is `calculate_distribution`,
a pure function from (level, cost, rerolls, purchased_target,
purchased_same_cost) to a probability mass function over the number of
copies of a target unit obtained after `rerolls * 5` shop slots.
Python floats are modelled exactly by rationals; Python dict `.get`
with a default is modelled by `dictGet` over association lists that
mirror the module-level dictionaries of the source.
-/

/-- Python `d.get(k, dflt)` on an integer-keyed dict, modelled as first-match
lookup in an association list with a default value. -/
def dictGet {α : Type} (d : List (ℤ × α)) (k : ℤ) (dflt : α) : α :=
  match d with
  | [] => dflt
  | (key, v) :: rest => if key = k then v else dictGet rest k dflt

/-- `COST_DISTRIBUTION` from src/main.py: per-level cost appearance rates
in percent (levels 1..10, cost tiers 1..5). -/
def COST_DISTRIBUTION : List (ℤ × List (ℤ × ℕ)) :=
  [ (1, [(1, 100), (2, 0), (3, 0), (4, 0), (5, 0)]),
    (2, [(1, 100), (2, 0), (3, 0), (4, 0), (5, 0)]),
    (3, [(1, 75), (2, 25), (3, 0), (4, 0), (5, 0)]),
    (4, [(1, 55), (2, 30), (3, 15), (4, 0), (5, 0)]),
    (5, [(1, 45), (2, 33), (3, 20), (4, 2), (5, 0)]),
    (6, [(1, 35), (2, 35), (3, 25), (4, 5), (5, 0)]),
    (7, [(1, 19), (2, 30), (3, 35), (4, 15), (5, 1)]),
    (8, [(1, 15), (2, 25), (3, 35), (4, 20), (5, 5)]),
    (9, [(1, 10), (2, 15), (3, 30), (4, 35), (5, 10)]),
    (10, [(1, 5), (2, 10), (3, 20), (4, 40), (5, 25)]) ]

/-- `UNIT_POOL_PER_CHAMPION` from src/main.py: copies of each single
champion in the pool, per cost tier. -/
def UNIT_POOL_PER_CHAMPION : List (ℤ × ℕ) :=
  [(1, 30), (2, 25), (3, 18), (4, 10), (5, 9)]

/-- `CHAMPION_COUNT_PER_COST` from src/main.py: number of distinct
champions per cost tier. -/
def CHAMPION_COUNT_PER_COST : List (ℤ × ℕ) :=
  [(1, 14), (2, 13), (3, 13), (4, 12), (5, 8)]

/-- `UNIT_POOL_SIZE` from src/main.py: the dict comprehension
`{cost: UNIT_POOL_PER_CHAMPION[cost] * CHAMPION_COUNT_PER_COST[cost] for cost in [1,2,3,4,5]}`. -/
def UNIT_POOL_SIZE : List (ℤ × ℕ) :=
  ([1, 2, 3, 4, 5] : List ℤ).map (fun cost =>
    (cost, dictGet UNIT_POOL_PER_CHAMPION cost 0 * dictGet CHAMPION_COUNT_PER_COST cost 0))

/-- Local `cost_prob_percent` of `calculate_distribution`:
`COST_DISTRIBUTION.get(level, {}).get(cost, 0)`. -/
def cost_prob_percent (level cost : ℤ) : ℕ :=
  dictGet (dictGet COST_DISTRIBUTION level []) cost 0

/-- Local `cost_prob` of `calculate_distribution`: `cost_prob_percent / 100.0`,
carried out exactly in ℚ. -/
def cost_prob (level cost : ℤ) : ℚ :=
  (cost_prob_percent level cost : ℚ) / 100

/-- Local `pool_size_total` of `calculate_distribution`:
`max(UNIT_POOL_SIZE.get(cost, 0) - purchased_same_cost, 0)`. -/
def pool_size_total (cost purchased_same_cost : ℤ) : ℤ :=
  max (((dictGet UNIT_POOL_SIZE cost 0 : ℕ) : ℤ) - purchased_same_cost) 0

/-- Local `pool_size_target` of `calculate_distribution`:
`max(UNIT_POOL_PER_CHAMPION.get(cost, 0) - purchased_target, 0)`. -/
def pool_size_target (cost purchased_target : ℤ) : ℤ :=
  max (((dictGet UNIT_POOL_PER_CHAMPION cost 0 : ℕ) : ℤ) - purchased_target) 0

/-- Local `p_single` of `calculate_distribution`:
`cost_prob * (pool_size_target / pool_size_total)`, float division carried
out exactly in ℚ. -/
def p_single (level cost purchased_target purchased_same_cost : ℤ) : ℚ :=
  cost_prob level cost *
    ((pool_size_target cost purchased_target : ℚ) / (pool_size_total cost purchased_same_cost : ℚ))

/-- `calculate_distribution` from src/main.py, step for step, with the local
bindings lifted to the named definitions above.  Integer arguments stay
integers (Python ints are unbounded); float arithmetic is carried out exactly
in ℚ.  `[0.0] * n` for possibly negative `n` is `List.replicate n.toNat 0`,
and `range(total_slots + 1)` is `List.range (total_slots + 1).toNat`, both
empty exactly when the Python expression is empty. -/
def calculate_distribution (level cost rerolls purchased_target purchased_same_cost : ℤ) :
    List ℚ :=
  if pool_size_total cost purchased_same_cost < 1 ∨
      pool_size_target cost purchased_target < 1 then
    (1 : ℚ) :: List.replicate (rerolls * 5).toNat 0
  else
    (List.range (rerolls * 5 + 1).toNat).map (fun k =>
      ((rerolls * 5).toNat.choose k : ℚ) *
        p_single level cost purchased_target purchased_same_cost ^ k *
        (1 - p_single level cost purchased_target purchased_same_cost) ^
          ((rerolls * 5).toNat - k))

example : calculate_distribution 1 1 0 0 0 = [1] := by
  norm_num [calculate_distribution, p_single, cost_prob, cost_prob_percent, pool_size_total,
    pool_size_target, dictGet, COST_DISTRIBUTION, UNIT_POOL_SIZE,
    UNIT_POOL_PER_CHAMPION, CHAMPION_COUNT_PER_COST, List.range_succ]
example : calculate_distribution 9 5 1 9 0 = [1, 0, 0, 0, 0, 0] := by
  norm_num [calculate_distribution, p_single, cost_prob, cost_prob_percent, pool_size_total,
    pool_size_target, dictGet, COST_DISTRIBUTION, UNIT_POOL_SIZE,
    UNIT_POOL_PER_CHAMPION, CHAMPION_COUNT_PER_COST, List.replicate]
example : (calculate_distribution 10 5 1 0 71).head? = some (-3125 / 1024) := by
  norm_num [calculate_distribution, p_single, cost_prob, cost_prob_percent, pool_size_total,
    pool_size_target, dictGet, COST_DISTRIBUTION, UNIT_POOL_SIZE,
    UNIT_POOL_PER_CHAMPION, CHAMPION_COUNT_PER_COST]
  refine ⟨0, by simp [List.range_succ_eq_map], ?_⟩
  rw [show Int.toNat 5 = 5 from rfl]
  norm_num

/-! ### Helper lemmas -/

/-- A property holding for every value of an association list and for the
default also holds for any `dictGet` result. -/
lemma dictGet_forall {α : Type} (P : α → Prop) (d : List (ℤ × α)) (k : ℤ) (dflt : α)
    (h1 : ∀ e ∈ d, P e.2) (h2 : P dflt) : P (dictGet d k dflt) := by
  induction d with
  | nil => exact h2
  | cons e rest ih =>
    rw [dictGet]
    split
    · exact h1 e (List.mem_cons_self e rest)
    · exact ih (fun x hx => h1 x (List.mem_cons_of_mem e hx))

/-- Every percentage in the appearance-rate table is at most 100, hence so is
any (possibly defaulted) lookup. -/
lemma cost_prob_percent_le_100 (level cost : ℤ) : cost_prob_percent level cost ≤ 100 := by
  rw [cost_prob_percent]
  refine dictGet_forall (fun row => dictGet row cost 0 ≤ 100) COST_DISTRIBUTION level [] ?_ ?_
  · intro e he
    refine dictGet_forall (fun v => v ≤ 100) e.2 cost 0 ?_ (by norm_num)
    intro v hv
    fin_cases he <;> fin_cases hv <;> norm_num
  · exact dictGet_forall (fun v => v ≤ 100) [] cost 0 (by simp) (by norm_num)

/-- Summing a function mapped over `List.range` is a `Finset.range` sum. -/
lemma list_range_map_sum {M : Type} [AddCommMonoid M] (f : ℕ → M) (n : ℕ) :
    ((List.range n).map f).sum = ∑ i in Finset.range n, f i := by
  induction n with
  | zero => simp
  | succ n ih =>
    rw [List.range_succ, List.map_append, List.sum_append, Finset.sum_range_succ, ih]
    simp

/-- The binomial theorem instance used by the program: the binomial masses
with parameter `p` over `n` trials sum to `1`, for any rational `p`. -/
lemma binomial_sum_eq_one (p : ℚ) (n : ℕ) :
    ∑ k in Finset.range (n + 1), (n.choose k : ℚ) * p ^ k * (1 - p) ^ (n - k) = 1 := by
  have h : (p + (1 - p)) ^ n =
      ∑ k in Finset.range (n + 1), p ^ k * (1 - p) ^ (n - k) * (n.choose k : ℚ) :=
    add_pow p (1 - p) n
  have h1 : (p + (1 - p)) ^ n = 1 := by ring_nf
  calc ∑ k in Finset.range (n + 1), (n.choose k : ℚ) * p ^ k * (1 - p) ^ (n - k)
      = ∑ k in Finset.range (n + 1), p ^ k * (1 - p) ^ (n - k) * (n.choose k : ℚ) := by
        refine Finset.sum_congr rfl ?_
        intro k _
        ring
    _ = (p + (1 - p)) ^ n := h.symm
    _ = 1 := h1

/-- The exhausted-pool branch of `calculate_distribution`. -/
lemma calculate_distribution_of_exhausted (level cost rerolls pt psc : ℤ)
    (h : pool_size_total cost psc < 1 ∨ pool_size_target cost pt < 1) :
    calculate_distribution level cost rerolls pt psc =
      (1 : ℚ) :: List.replicate (rerolls * 5).toNat 0 := by
  rw [calculate_distribution, if_pos h]

/-- The binomial branch of `calculate_distribution`. -/
lemma calculate_distribution_of_live (level cost rerolls pt psc : ℤ)
    (h : ¬(pool_size_total cost psc < 1 ∨ pool_size_target cost pt < 1)) :
    calculate_distribution level cost rerolls pt psc =
      (List.range (rerolls * 5 + 1).toNat).map (fun k =>
        ((rerolls * 5).toNat.choose k : ℚ) * p_single level cost pt psc ^ k *
          (1 - p_single level cost pt psc) ^ ((rerolls * 5).toNat - k)) := by
  rw [calculate_distribution, if_neg h]

/-- The sum of the returned list is exactly 1 whenever `rerolls ≥ 0`,
in both branches. -/
lemma calculate_distribution_sum_eq_one (level cost rerolls pt psc : ℤ)
    (hr : 0 ≤ rerolls) :
    (calculate_distribution level cost rerolls pt psc).sum = 1 := by
  by_cases h : pool_size_total cost psc < 1 ∨ pool_size_target cost pt < 1
  · rw [calculate_distribution_of_exhausted level cost rerolls pt psc h]
    simp
  · rw [calculate_distribution_of_live level cost rerolls pt psc h]
    rw [list_range_map_sum]
    have hn : (rerolls * 5 + 1).toNat = (rerolls * 5).toNat + 1 := by omega
    rw [hn, binomial_sum_eq_one]

/-- The returned list has `rerolls * 5 + 1` entries whenever `rerolls ≥ 0`,
in both branches. -/
lemma calculate_distribution_length (level cost rerolls pt psc : ℤ)
    (hr : 0 ≤ rerolls) :
    ((calculate_distribution level cost rerolls pt psc).length : ℤ) = rerolls * 5 + 1 := by
  by_cases h : pool_size_total cost psc < 1 ∨ pool_size_target cost pt < 1
  · rw [calculate_distribution_of_exhausted level cost rerolls pt psc h]
    simp
    omega
  · rw [calculate_distribution_of_live level cost rerolls pt psc h]
    simp
    omega

/-- The binomial masses with parameter `0` form the point mass at `0`. -/
lemma map_binomial_zero (n : ℕ) :
    (List.range (n + 1)).map (fun k =>
        (n.choose k : ℚ) * (0 : ℚ) ^ k * (1 - (0 : ℚ)) ^ (n - k)) =
      (1 : ℚ) :: List.replicate n 0 := by
  rw [List.range_succ_eq_map, List.map_cons, List.map_map]
  refine congrArg₂ _ (by norm_num) ?_
  refine List.eq_replicate_iff.2 ⟨by simp, ?_⟩
  intro b hb
  rcases List.mem_map.1 hb with ⟨k, _, rfl⟩
  simp

/-- A level outside the appearance table looks up to the empty row. -/
lemma dictGet_level_absent (level : ℤ) (h : level < 1 ∨ 10 < level) :
    dictGet COST_DISTRIBUTION level [] = ([] : List (ℤ × ℕ)) := by
  have h1 : ¬((1 : ℤ) = level) := by omega
  have h2 : ¬((2 : ℤ) = level) := by omega
  have h3 : ¬((3 : ℤ) = level) := by omega
  have h4 : ¬((4 : ℤ) = level) := by omega
  have h5 : ¬((5 : ℤ) = level) := by omega
  have h6 : ¬((6 : ℤ) = level) := by omega
  have h7 : ¬((7 : ℤ) = level) := by omega
  have h8 : ¬((8 : ℤ) = level) := by omega
  have h9 : ¬((9 : ℤ) = level) := by omega
  have h10 : ¬((10 : ℤ) = level) := by omega
  simp [COST_DISTRIBUTION, dictGet, h1, h2, h3, h4, h5, h6, h7, h8, h9, h10]

/-- A cost outside the pool tables looks up to the default `0` pool size. -/
lemma dictGet_pool_size_absent (cost : ℤ) (h : cost < 1 ∨ 5 < cost) :
    dictGet UNIT_POOL_SIZE cost 0 = 0 := by
  have h1 : ¬((1 : ℤ) = cost) := by omega
  have h2 : ¬((2 : ℤ) = cost) := by omega
  have h3 : ¬((3 : ℤ) = cost) := by omega
  have h4 : ¬((4 : ℤ) = cost) := by omega
  have h5 : ¬((5 : ℤ) = cost) := by omega
  simp [UNIT_POOL_SIZE, UNIT_POOL_PER_CHAMPION, CHAMPION_COUNT_PER_COST, dictGet,
    h1, h2, h3, h4, h5]

/-- Entry `k` of the binomial branch, for `k` in range. -/
lemma calculate_distribution_getElem (level cost rerolls pt psc : ℤ)
    (h : ¬(pool_size_total cost psc < 1 ∨ pool_size_target cost pt < 1))
    (hr : 0 ≤ rerolls) (k : ℕ) (hk : k ≤ (rerolls * 5).toNat) :
    (calculate_distribution level cost rerolls pt psc)[k]? =
      some (((rerolls * 5).toNat.choose k : ℚ) * p_single level cost pt psc ^ k *
        (1 - p_single level cost pt psc) ^ ((rerolls * 5).toNat - k)) := by
  rw [calculate_distribution_of_live level cost rerolls pt psc h]
  have hk' : k < (rerolls * 5 + 1).toNat := by omega
  simp [List.getElem?_map, List.getElem?_range, hk']

/-- The head of a mapped range is the image of `0`. -/
lemma head_range_map (f : ℕ → ℚ) (n : ℕ) :
    ((List.range (n + 1)).map f).head? = some (f 0) := by
  rw [List.range_succ_eq_map]
  simp

/-- The per-slot probability is never negative. -/
lemma p_single_nonneg (level cost pt psc : ℤ) : 0 ≤ p_single level cost pt psc := by
  rw [p_single, cost_prob]
  apply mul_nonneg
  · positivity
  · apply div_nonneg
    · exact_mod_cast le_max_right _ (0 : ℤ)
    · exact_mod_cast le_max_right _ (0 : ℤ)

/-- The per-slot probability is at most one provided the remaining target
copies do not exceed the remaining tier pool. -/
lemma p_single_le_one (level cost pt psc : ℤ)
    (h : pool_size_target cost pt ≤ pool_size_total cost psc)
    (hpos : 1 ≤ pool_size_total cost psc) : p_single level cost pt psc ≤ 1 := by
  rw [p_single]
  have h0 : (0 : ℚ) ≤ (pool_size_target cost pt : ℚ) /
      (pool_size_total cost psc : ℚ) := by
    apply div_nonneg
    · exact_mod_cast le_max_right _ (0 : ℤ)
    · exact_mod_cast le_max_right _ (0 : ℤ)
  have h1 : (pool_size_target cost pt : ℚ) / (pool_size_total cost psc : ℚ) ≤ 1 := by
    rw [div_le_one (by exact_mod_cast hpos)]
    exact_mod_cast h
  have h2 : cost_prob level cost ≤ 1 := by
    rw [cost_prob, div_le_one (by norm_num)]
    exact_mod_cast (cost_prob_percent_le_100 level cost)
  have h3 : (0 : ℚ) ≤ cost_prob level cost := by
    rw [cost_prob]
    positivity
  calc cost_prob level cost *
        ((pool_size_target cost pt : ℚ) / (pool_size_total cost psc : ℚ))
      ≤ 1 * 1 := by
        apply mul_le_mul h2 h1 h0 (by norm_num)
    _ = 1 := by norm_num

/-- Every entry of the returned list lies in `[0, 1]` provided the remaining
target copies do not exceed the remaining tier pool. -/
lemma calculate_distribution_mem_unit (level cost rerolls pt psc : ℤ)
    (h : pool_size_target cost pt ≤ pool_size_total cost psc) :
    ∀ x ∈ calculate_distribution level cost rerolls pt psc, 0 ≤ x ∧ x ≤ 1 := by
  by_cases hcond : pool_size_total cost psc < 1 ∨ pool_size_target cost pt < 1
  · rw [calculate_distribution_of_exhausted level cost rerolls pt psc hcond]
    intro x hx
    rcases List.mem_cons.1 hx with rfl | hx'
    · norm_num
    · rw [List.eq_of_mem_replicate hx']
      norm_num
  · push_neg at hcond
    have hpos : 1 ≤ pool_size_total cost psc := by omega
    have hp0 := p_single_nonneg level cost pt psc
    have hp1 := p_single_le_one level cost pt psc h hpos
    rw [calculate_distribution_of_live level cost rerolls pt psc
      (by push_neg; exact hcond)]
    intro x hx
    rcases List.mem_map.1 hx with ⟨k, hk, rfl⟩
    have hterm : ∀ i : ℕ, (0 : ℚ) ≤
        ((rerolls * 5).toNat.choose i : ℚ) * p_single level cost pt psc ^ i *
          (1 - p_single level cost pt psc) ^ ((rerolls * 5).toNat - i) := by
      intro i
      apply mul_nonneg (mul_nonneg (by positivity) (pow_nonneg hp0 i))
      exact pow_nonneg (by linarith) _
    refine ⟨hterm k, ?_⟩
    have hkmem : k ∈ Finset.range ((rerolls * 5).toNat + 1) := by
      rw [List.mem_range] at hk
      rw [Finset.mem_range]
      omega
    calc ((rerolls * 5).toNat.choose k : ℚ) * p_single level cost pt psc ^ k *
          (1 - p_single level cost pt psc) ^ ((rerolls * 5).toNat - k)
        ≤ ∑ i in Finset.range ((rerolls * 5).toNat + 1),
            ((rerolls * 5).toNat.choose i : ℚ) * p_single level cost pt psc ^ i *
              (1 - p_single level cost pt psc) ^ ((rerolls * 5).toNat - i) :=
          Finset.single_le_sum (fun i _ => hterm i) hkmem
      _ = 1 := binomial_sum_eq_one (p_single level cost pt psc) (rerolls * 5).toNat

/-- Scenario-1 per-slot probability: at level 9, cost 5, no purchases,
`p_single` is exactly `1/80 = 0.0125`. -/
lemma scenario1_p : p_single 9 5 0 0 = 1 / 80 := by
  rw [p_single, cost_prob, cost_prob_percent, pool_size_target, pool_size_total]
  norm_num [dictGet, COST_DISTRIBUTION, UNIT_POOL_SIZE, UNIT_POOL_PER_CHAMPION,
    CHAMPION_COUNT_PER_COST]

/-- Scenario-1 head entry: the probability of obtaining zero copies is
exactly `(79/80)^100`. -/
lemma scenario1_head :
    (calculate_distribution 9 5 20 0 0).head? = some ((79 / 80 : ℚ) ^ 100) := by
  have hcond : ¬(pool_size_total 5 0 < 1 ∨ pool_size_target 5 0 < 1) := by decide
  rw [calculate_distribution_of_live 9 5 20 0 0 hcond,
    show ((20 : ℤ) * 5 + 1).toNat = 100 + 1 from rfl, head_range_map,
    show ((20 : ℤ) * 5).toNat = 100 from rfl, scenario1_p]
  norm_num

/-! ### Claims -/

/-- C1: with level and cost present in the reference tables, `rerolls ≥ 0`
and both remaining pools non-exhausted, entry `k` of
`calculate_distribution` (for `k = 0..slots`, `slots = rerolls * 5`) is the
binomial mass `C(slots, k) * p^k * (1-p)^(slots-k)` with
`p = tierRate * (remainingTargetCopies / remainingTierPool)`. -/
theorem claim_binomial_mass (level cost rerolls pt psc : ℤ)
    (hlevel : 1 ≤ level ∧ level ≤ 10) (hcost : 1 ≤ cost ∧ cost ≤ 5)
    (hr : 0 ≤ rerolls)
    (hpool : 1 ≤ pool_size_total cost psc) (htarget : 1 ≤ pool_size_target cost pt)
    (k : ℕ) (hk : k ≤ (rerolls * 5).toNat) :
    (calculate_distribution level cost rerolls pt psc)[k]? =
      some (((rerolls * 5).toNat.choose k : ℚ) *
        (cost_prob level cost *
          ((pool_size_target cost pt : ℚ) / (pool_size_total cost psc : ℚ))) ^ k *
        (1 - cost_prob level cost *
          ((pool_size_target cost pt : ℚ) / (pool_size_total cost psc : ℚ))) ^
          ((rerolls * 5).toNat - k)) := by
  have h : ¬(pool_size_total cost psc < 1 ∨ pool_size_target cost pt < 1) := by
    push_neg
    omega
  rw [show cost_prob level cost *
      ((pool_size_target cost pt : ℚ) / (pool_size_total cost psc : ℚ)) =
      p_single level cost pt psc from rfl]
  exact calculate_distribution_getElem level cost rerolls pt psc h hr k hk

theorem claim_binomial_mass_witness :
    ((1 : ℤ) ≤ 9 ∧ (9 : ℤ) ≤ 10) ∧ ((1 : ℤ) ≤ 5 ∧ (5 : ℤ) ≤ 5) ∧ (0 : ℤ) ≤ 1 ∧
      1 ≤ pool_size_total 5 0 ∧ 1 ≤ pool_size_target 5 0 ∧
      2 ≤ ((1 : ℤ) * 5).toNat ∧
      (calculate_distribution 9 5 1 0 0)[2]? =
        some ((((1 : ℤ) * 5).toNat.choose 2 : ℚ) *
          (cost_prob 9 5 * ((pool_size_target 5 0 : ℚ) / (pool_size_total 5 0 : ℚ))) ^ 2 *
          (1 - cost_prob 9 5 *
            ((pool_size_target 5 0 : ℚ) / (pool_size_total 5 0 : ℚ))) ^
            (((1 : ℤ) * 5).toNat - 2)) :=
  ⟨⟨by norm_num, by norm_num⟩, ⟨by norm_num, by norm_num⟩, by norm_num,
    by decide, by decide, by decide,
    claim_binomial_mass 9 5 1 0 0 ⟨by norm_num, by norm_num⟩ ⟨by norm_num, by norm_num⟩
      (by norm_num) (by decide) (by decide) 2 (by decide)⟩

/-- C2: for every input with `rerolls ≥ 0` (level and cost arbitrary), the
probabilities returned by `calculate_distribution` sum to exactly `1` in
exact rational arithmetic, in both branches. -/
theorem claim_normalization (level cost rerolls pt psc : ℤ) (hr : 0 ≤ rerolls)
    (hpt : 0 ≤ pt) (hpsc : 0 ≤ psc) :
    (calculate_distribution level cost rerolls pt psc).sum = 1 :=
  calculate_distribution_sum_eq_one level cost rerolls pt psc hr

theorem claim_normalization_witness :
    (0 : ℤ) ≤ 20 ∧ (0 : ℤ) ≤ 0 ∧ (0 : ℤ) ≤ 0 ∧
      (calculate_distribution 9 5 20 0 0).sum = 1 :=
  ⟨by norm_num, by norm_num, by norm_num,
    claim_normalization 9 5 20 0 0 (by norm_num) (by norm_num) (by norm_num)⟩

/-- C3 counterexample: with level 10, cost 5, one reroll and 71 purchased
other same-cost units, the pool clamping leaves 9 target copies against a
tier pool of 1, so the per-slot probability is 9/4 > 1 and the first entry
of the returned list is (1 - 9/4)^5 = -3125/1024, which is not in [0, 1]. -/
theorem claim_unit_interval_ce :
    (calculate_distribution 10 5 1 0 71).head? = some (-3125 / 1024) ∧
      ¬(0 ≤ (-3125 / 1024 : ℚ) ∧ (-3125 / 1024 : ℚ) ≤ 1) := by
  constructor
  · have hcond : ¬(pool_size_total 5 71 < 1 ∨ pool_size_target 5 0 < 1) := by decide
    rw [calculate_distribution_of_live 10 5 1 0 71 hcond,
      show ((1 : ℤ) * 5 + 1).toNat = 5 + 1 by omega, head_range_map,
      show ((1 : ℤ) * 5).toNat = 5 by omega]
    have hp : p_single 10 5 0 71 = 9 / 4 := by
      rw [p_single, cost_prob, cost_prob_percent, pool_size_target, pool_size_total]
      norm_num [dictGet, COST_DISTRIBUTION, UNIT_POOL_SIZE, UNIT_POOL_PER_CHAMPION,
        CHAMPION_COUNT_PER_COST]
    rw [hp]
    norm_num
  · norm_num

/-- C3 amended: every entry of the returned sequence lies in [0, 1] for
`rerolls ≥ 0`, `purchased_target ≥ 0`, `purchased_same_cost ≥ 0`, provided
additionally that the remaining target copies do not exceed the remaining
tier pool (`pool_size_target ≤ pool_size_total`); without that proviso the
clamping logic admits a per-slot probability above 1 and entries outside
[0, 1]. -/
theorem claim_unit_interval_amended (level cost rerolls pt psc : ℤ)
    (hr : 0 ≤ rerolls) (hpt : 0 ≤ pt) (hpsc : 0 ≤ psc)
    (h : pool_size_target cost pt ≤ pool_size_total cost psc) :
    ∀ x ∈ calculate_distribution level cost rerolls pt psc, 0 ≤ x ∧ x ≤ 1 :=
  calculate_distribution_mem_unit level cost rerolls pt psc h

theorem claim_unit_interval_amended_witness :
    (0 : ℤ) ≤ 1 ∧ (0 : ℤ) ≤ 9 ∧ (0 : ℤ) ≤ 0 ∧
      pool_size_target 5 9 ≤ pool_size_total 5 0 ∧
      (0 ≤ (1 : ℚ) ∧ (1 : ℚ) ≤ 1) := by
  refine ⟨by norm_num, by norm_num, by norm_num, by decide, ?_⟩
  refine claim_unit_interval_amended 9 5 1 9 0 (by norm_num) (by norm_num) (by norm_num)
    (by decide) 1 ?_
  rw [calculate_distribution_of_exhausted 9 5 1 9 0 (by decide)]
  exact List.mem_cons_self _ _

/-- C4: for `rerolls ≥ 0` the returned sequence has exactly
`rerolls * 5 + 1` entries, in both the exhausted-pool branch and the
binomial branch. -/
theorem claim_length (level cost rerolls pt psc : ℤ) (hr : 0 ≤ rerolls) :
    ((calculate_distribution level cost rerolls pt psc).length : ℤ) = rerolls * 5 + 1 :=
  calculate_distribution_length level cost rerolls pt psc hr

theorem claim_length_witness :
    (0 : ℤ) ≤ 20 ∧ ((calculate_distribution 9 5 20 0 0).length : ℤ) = 20 * 5 + 1 :=
  ⟨by norm_num, claim_length 9 5 20 0 0 (by norm_num)⟩

/-- C5: whenever the remaining tier pool or the remaining target copies are
below 1 — in particular whenever `purchased_target` is at least
`UNIT_POOL_PER_CHAMPION[cost]` — the result is the point mass at zero
copies: probability 1 at entry 0 and probability 0 at every other entry,
regardless of level. -/
theorem claim_pool_exhausted (level cost rerolls pt psc : ℤ) (hr : 0 ≤ rerolls)
    (h : pool_size_total cost psc < 1 ∨ pool_size_target cost pt < 1 ∨
      ((dictGet UNIT_POOL_PER_CHAMPION cost 0 : ℕ) : ℤ) ≤ pt) :
    calculate_distribution level cost rerolls pt psc =
      (1 : ℚ) :: List.replicate (rerolls * 5).toNat 0 := by
  apply calculate_distribution_of_exhausted
  rcases h with h | h | h
  · exact Or.inl h
  · exact Or.inr h
  · refine Or.inr ?_
    rw [pool_size_target, max_eq_right (by omega)]
    norm_num

theorem claim_pool_exhausted_witness :
    (0 : ℤ) ≤ 2 ∧
      (pool_size_total 5 0 < 1 ∨ pool_size_target 5 9 < 1 ∨
        ((dictGet UNIT_POOL_PER_CHAMPION 5 0 : ℕ) : ℤ) ≤ 9) ∧
      calculate_distribution 9 5 2 9 0 = (1 : ℚ) :: List.replicate ((2 : ℤ) * 5).toNat 0 :=
  ⟨by norm_num, by decide, claim_pool_exhausted 9 5 2 9 0 (by norm_num) (by decide)⟩

/-- C6: a level or cost absent from the reference tables is not an error:
the lookup defaults make the appearance rate 0 (and the pool size 0 for an
absent cost), and the result is the same point mass at zero copies as in
the pool-exhaustion case; in particular level 11 behaves this way. -/
theorem claim_unknown_key (level cost rerolls pt psc : ℤ)
    (hr : 0 ≤ rerolls) (hpt : 0 ≤ pt) (hpsc : 0 ≤ psc)
    (h : level < 1 ∨ 10 < level ∨ cost < 1 ∨ 5 < cost) :
    calculate_distribution level cost rerolls pt psc =
      (1 : ℚ) :: List.replicate (rerolls * 5).toNat 0 := by
  have hlevel : (level < 1 ∨ 10 < level) →
      calculate_distribution level cost rerolls pt psc =
        (1 : ℚ) :: List.replicate (rerolls * 5).toNat 0 := by
    intro hl
    have hp : p_single level cost pt psc = 0 := by
      rw [p_single, cost_prob, cost_prob_percent, dictGet_level_absent level hl]
      rw [show dictGet ([] : List (ℤ × ℕ)) cost 0 = 0 from rfl]
      norm_num
    by_cases hcond : pool_size_total cost psc < 1 ∨ pool_size_target cost pt < 1
    · exact calculate_distribution_of_exhausted level cost rerolls pt psc hcond
    · rw [calculate_distribution_of_live level cost rerolls pt psc hcond,
        show (rerolls * 5 + 1).toNat = (rerolls * 5).toNat + 1 by omega]
      simp only [hp]
      exact map_binomial_zero (rerolls * 5).toNat
  have hcost : (cost < 1 ∨ 5 < cost) →
      calculate_distribution level cost rerolls pt psc =
        (1 : ℚ) :: List.replicate (rerolls * 5).toNat 0 := by
    intro hc
    apply calculate_distribution_of_exhausted
    refine Or.inl ?_
    rw [pool_size_total, dictGet_pool_size_absent cost hc, max_eq_right (by omega)]
    norm_num
  rcases h with h | h | h | h
  · exact hlevel (Or.inl h)
  · exact hlevel (Or.inr h)
  · exact hcost (Or.inl h)
  · exact hcost (Or.inr h)

theorem claim_unknown_key_witness :
    (0 : ℤ) ≤ 3 ∧ (0 : ℤ) ≤ 0 ∧ (0 : ℤ) ≤ 0 ∧
      ((11 : ℤ) < 1 ∨ (10 : ℤ) < 11 ∨ (5 : ℤ) < 1 ∨ (5 : ℤ) < 5) ∧
      calculate_distribution 11 5 3 0 0 = (1 : ℚ) :: List.replicate ((3 : ℤ) * 5).toNat 0 :=
  ⟨by norm_num, by norm_num, by norm_num, by norm_num,
    claim_unknown_key 11 5 3 0 0 (by norm_num) (by norm_num) (by norm_num)
      (by norm_num)⟩

/-- C7: with zero rerolls the result is exactly the single-entry sequence
`[1]`, for every level, cost and purchase counts; in the binomial branch
this is the `slots = 0` instance of the binomial formula, not a special
case. -/
theorem claim_zero_rerolls (level cost pt psc : ℤ) (hpt : 0 ≤ pt) (hpsc : 0 ≤ psc) :
    calculate_distribution level cost 0 pt psc = [(1 : ℚ)] := by
  by_cases hcond : pool_size_total cost psc < 1 ∨ pool_size_target cost pt < 1
  · rw [calculate_distribution_of_exhausted level cost 0 pt psc hcond,
      show ((0 : ℤ) * 5).toNat = 0 by omega]
    norm_num
  · rw [calculate_distribution_of_live level cost 0 pt psc hcond,
      show ((0 : ℤ) * 5 + 1).toNat = 1 by omega,
      show List.range 1 = [0] by decide,
      show ((0 : ℤ) * 5).toNat = 0 by omega]
    norm_num

theorem claim_zero_rerolls_witness :
    (0 : ℤ) ≤ 3 ∧ (0 : ℤ) ≤ 4 ∧ calculate_distribution 7 2 0 3 4 = [(1 : ℚ)] :=
  ⟨by norm_num, by norm_num, claim_zero_rerolls 7 2 3 4 (by norm_num) (by norm_num)⟩

/-- C8 counterexample: in scenario 1 (level 9, cost 5, 20 rerolls, nothing
purchased) the probability of zero copies is exactly `(79/80)^100`, which is
below `0.2853` — more than `0.001` under the claimed approximation
`0.2863`, so `P(0) ≈ 0.2863` fails at the stated four-digit precision. -/
theorem claim_scenario1_ce :
    (calculate_distribution 9 5 20 0 0).head? = some ((79 / 80 : ℚ) ^ 100) ∧
      (79 / 80 : ℚ) ^ 100 < 2853 / 10000 :=
  ⟨scenario1_head, by norm_num⟩

/-- C8 amended: in scenario 1 the tier rate is 10 percent, the pool is
9 × 8 = 72 copies, the per-slot probability is `1/80 = 0.0125`, there are
`100 + 1` entries, `P(0) = (79/80)^100 ≈ 0.2843` (it lies strictly between
`0.2842` and `0.2843`), and the whole distribution sums to 1. -/
theorem claim_scenario1 :
    cost_prob_percent 9 5 = 10 ∧
    dictGet UNIT_POOL_PER_CHAMPION 5 0 = 9 ∧
    dictGet CHAMPION_COUNT_PER_COST 5 0 = 8 ∧
    dictGet UNIT_POOL_SIZE 5 0 = 72 ∧
    p_single 9 5 0 0 = 1 / 80 ∧
    ((calculate_distribution 9 5 20 0 0).length : ℤ) = 20 * 5 + 1 ∧
    (calculate_distribution 9 5 20 0 0).head? = some ((79 / 80 : ℚ) ^ 100) ∧
    (2842 / 10000 : ℚ) < (79 / 80 : ℚ) ^ 100 ∧
    (79 / 80 : ℚ) ^ 100 < (2843 / 10000 : ℚ) ∧
    (calculate_distribution 9 5 20 0 0).sum = 1 :=
  ⟨by decide, by decide, by decide, by decide, scenario1_p,
    calculate_distribution_length 9 5 20 0 0 (by norm_num), scenario1_head,
    by norm_num, by norm_num,
    calculate_distribution_sum_eq_one 9 5 20 0 0 (by norm_num)⟩

/-- C9: the static reference tables satisfy the stated invariants: every
level row of `COST_DISTRIBUTION` carries all five cost tiers (zero rates as
explicit entries, each at most 100) and sums to exactly 100, the pool
tables carry positive entries for the five cost tiers, and
`UNIT_POOL_SIZE` is their product (in particular 30 × 14 = 420 for
cost 1). -/
theorem claim_static_tables :
    COST_DISTRIBUTION.map Prod.fst = [1, 2, 3, 4, 5, 6, 7, 8, 9, 10] ∧
    (COST_DISTRIBUTION.all fun row =>
      decide (row.2.map Prod.fst = [1, 2, 3, 4, 5]) &&
      decide ((row.2.map Prod.snd).sum = 100) &&
      row.2.all (fun e => decide (e.2 ≤ 100))) = true ∧
    UNIT_POOL_PER_CHAMPION.map Prod.fst = [1, 2, 3, 4, 5] ∧
    (UNIT_POOL_PER_CHAMPION.all fun e => decide (0 < e.2)) = true ∧
    CHAMPION_COUNT_PER_COST.map Prod.fst = [1, 2, 3, 4, 5] ∧
    (CHAMPION_COUNT_PER_COST.all fun e => decide (0 < e.2)) = true ∧
    (([1, 2, 3, 4, 5] : List ℤ).all fun c =>
      decide (dictGet UNIT_POOL_SIZE c 0 =
        dictGet UNIT_POOL_PER_CHAMPION c 0 * dictGet CHAMPION_COUNT_PER_COST c 0)) = true ∧
    dictGet UNIT_POOL_SIZE 1 0 = 420 := by
  decide

/-- C10: for negative `rerolls` (outside the documented domain) the
function still evaluates without error but does not clamp: the exhausted
branch returns the single-entry list `[1]`, and the binomial branch returns
the empty list, which has length 0 (not `rerolls * 5 + 1`) and sum 0. -/
theorem claim_negative_rerolls (level cost rerolls pt psc : ℤ) (hr : rerolls < 0) :
    calculate_distribution level cost rerolls pt psc =
      if pool_size_total cost psc < 1 ∨ pool_size_target cost pt < 1 then
        [(1 : ℚ)]
      else
        [] := by
  by_cases hcond : pool_size_total cost psc < 1 ∨ pool_size_target cost pt < 1
  · rw [if_pos hcond, calculate_distribution_of_exhausted level cost rerolls pt psc hcond,
      show (rerolls * 5).toNat = 0 by omega]
    norm_num
  · rw [if_neg hcond, calculate_distribution_of_live level cost rerolls pt psc hcond,
      show (rerolls * 5 + 1).toNat = 0 by omega]
    norm_num

theorem claim_negative_rerolls_witness :
    (-1 : ℤ) < 0 ∧
      calculate_distribution 9 5 (-1) 0 0 =
        (if pool_size_total 5 0 < 1 ∨ pool_size_target 5 0 < 1 then
          [(1 : ℚ)]
        else
          []) :=
  ⟨by norm_num, claim_negative_rerolls 9 5 (-1) 0 0 (by norm_num)⟩
